import Mathlib

/-!
A shallow embedding of the `wgpu-allocators` crate (files `src/lib.rs`,
`src/allocators.rs`, `src/arena.rs`) together with proofs about the
embedded operations.

Machine integers (`wgpu::BufferAddress = u64`, `NonZeroBufferAddress =
NonZeroU64`) are modelled as `Nat`; where two's-complement behaviour of a
64-bit register matters (the bitwise complement in
`create_alignment_bitmask`) the 64-bit width is made explicit.  Rust
panics (`panic!`, indexing out of bounds, `Option::unwrap`,
`Result::expect`) are modelled as the `Except.error` branch of an
`Except String` result.  GPU objects (`wgpu::Device`, `wgpu::Buffer`,
usage flags) play no role in any claim about the allocation logic, so a
`Heap` is modelled by its one observable attribute, its byte size, and a
command encoder by the list of copy commands enqueued on it.
-/

namespace WgpuAllocators

/-- Models Rust's `Range<BufferAddress>`; `stop` stands for the Rust
field `end`, which is a reserved word in Lean. -/
structure Range where
  start : Nat
  stop : Nat
deriving Repr, DecidableEq

/-- The state of the `Stack` allocator of `src/allocators.rs`: a single
bump pointer. -/
structure Stack where
  pointer : Nat
deriving Repr, DecidableEq

/-- `create_alignment_bitmask` from `src/allocators.rs`:
`!(alignment - 1)` computed on a `u64`, i.e. the complement is taken
with respect to the 64-bit word: `!x = (2^64 - 1) - x`. -/
def create_alignment_bitmask (alignment : Nat) : Nat :=
  (2 ^ 64 - 1) - (alignment - 1)

namespace Stack

/-- `<Stack as Allocator>::new`: the pointer starts at the heap's size
(`heap.size.get()`). -/
def new (heap_size : Nat) : Stack :=
  { pointer := heap_size }

/-- `<Stack as Allocator>::alloc`.  `self.pointer.checked_sub(size)?`
returns early with `None` (leaving the state untouched) when
`size > pointer`; otherwise the difference is masked with
`create_alignment_bitmask alignment`, committed as the new pointer, and
the range `pointer' .. pointer' + size` is returned. -/
def alloc (s : Stack) (size alignment : Nat) : Option Range × Stack :=
  if size ≤ s.pointer then
    let p := (s.pointer - size) &&& create_alignment_bitmask alignment
    (some { start := p, stop := p + size }, { pointer := p })
  else
    (none, s)

/-- `<Stack as Allocator>::dealloc`: succeeds exactly when the range
starts at the current pointer, in which case the pointer moves to the
range's end; otherwise `Err(())` and the state is unchanged. -/
def dealloc (s : Stack) (range : Range) : Except Unit Unit × Stack :=
  if range.start = s.pointer then
    (Except.ok (), { pointer := range.stop })
  else
    (Except.error (), s)

end Stack

/-- The number of binary digits of a natural number, computed with a
fuel bound of the word width.  `bitLen 64 n` models the quantity
`total_bits - size.leading_zeros()` that `classify_size` computes on a
`u64`, since for a `u64` value `leading_zeros = 64 - bit-length` and
64 halvings exhaust any `u64`. -/
def bitLen : Nat → Nat → Nat
  | 0, _ => 0
  | fuel + 1, n => if n = 0 then 0 else bitLen fuel (n / 2) + 1

/-- `classify_size` from `src/arena.rs`: with
`leading_zeros = 64 - bit-length of size` and `total_bits = 64` (the
bit-width of `BufferAddress = u64`), the result is
`total_bits - leading_zeros - 1`. -/
def classify_size (size : Nat) : Nat :=
  let leading_zeros := 64 - bitLen 64 size
  let total_bits := 64
  total_bits - leading_zeros - 1

/-- A `Heap` from `src/lib.rs`.  The staging and gpu `wgpu::Buffer`s
are opaque device objects; the heap's one observable attribute for the
allocation logic is its byte `size`. -/
structure Heap where
  size : Nat
deriving Repr, DecidableEq

/-- A buffer-to-buffer copy command as enqueued by
`wgpu::CommandEncoder::copy_buffer_to_buffer` inside
`Heap::flush_range`: source is the heap's staging buffer, destination
its gpu buffer. -/
structure CopyCmd where
  src_offset : Nat
  dst_offset : Nat
  copy_size : Nat
deriving Repr, DecidableEq

/-- `get_range_size` from `src/lib.rs`:
`range.end.checked_sub(range.start).expect("range is backwards; ...")`.
The `expect` panic is the error branch. -/
def get_range_size (range : Range) : Except String Nat :=
  if range.start ≤ range.stop then
    Except.ok (range.stop - range.start)
  else
    Except.error "range is backwards; end should not be less than start"

/-- `Heap::flush_range`: evaluates `get_range_size` (panicking on a
backwards range before the encoder is touched, per Rust's
argument-evaluation order) and otherwise enqueues one staging-to-gpu
copy at offset `range.start` in both buffers. -/
def Heap.flush_range (encoder : List CopyCmd) (range : Range) :
    Except String (List CopyCmd) :=
  match get_range_size range with
  | Except.ok n =>
      Except.ok (encoder ++
        [{ src_offset := range.start, dst_offset := range.start, copy_size := n }])
  | Except.error e => Except.error e

/-- `ArenaKey` from `src/arena.rs`. -/
structure ArenaKey where
  size_class : Nat
  index_in_pool : Nat
deriving Repr, DecidableEq

/-- `Allocation` from `src/arena.rs`. -/
structure Allocation where
  arena_key : ArenaKey
  range_in_heap : Range
deriving Repr, DecidableEq

/-- A `SizePool<Stack>`: the insertion-ordered vector of
`(Heap, Allocator)` pairs. -/
abbrev SizePool := List (Heap × Stack)

/-- `HeapArena<Stack>` from `src/arena.rs`.  The `usage` field
(opaque flags forwarded to buffer creation) plays no role in any
allocation decision and is omitted; `calc_new_heap_size` takes the
`first_alloc_size` field of the `NewHeapSizeContext` it is passed. -/
structure HeapArena where
  tiny_pool : SizePool
  size_pools : List SizePool
  calc_new_heap_size : Nat → Nat

/-- The search loop of `HeapArena::alloc_in_pool`, which walks
`pool.0.iter_mut().rev().enumerate()`: this function receives the
*reversed* pool, so the head carries loop index 0 (the most recently
appended pair).  On the first allocator success it returns the loop
index, the range, and the reversed pool with that allocator's state
updated. -/
def searchRev (size alignment : Nat) :
    List (Heap × Stack) → Option (Nat × Range × List (Heap × Stack))
  | [] => none
  | (heap, allocator) :: rest =>
    match Stack.alloc allocator size alignment with
    | (some range, allocator') => some (0, range, (heap, allocator') :: rest)
    | (none, _) =>
      match searchRev size alignment rest with
      | some (i, range, rest') => some (i + 1, range, (heap, allocator) :: rest')
      | none => none

/-- `HeapArena::alloc_in_pool` for the `Stack` allocator.  After the
(reversed, enumerated) search fails, the sizing policy is consulted;
a result smaller than the request is the `panic!("heap size is too
small ...")`, otherwise `SizePool::expand` pushes a new
`(Heap, A::new(&heap))` pair and the allocation is retried on it with
`.unwrap()`. -/
def alloc_in_pool (pool : SizePool) (size size_class alignment : Nat)
    (calc_new_heap_size : Nat → Nat) :
    Except String (Allocation × SizePool) :=
  match searchRev size alignment pool.reverse with
  | some (index_in_pool, range_in_heap, rev') =>
      Except.ok
        ({ arena_key := { size_class, index_in_pool }, range_in_heap },
         rev'.reverse)
  | none =>
      let new_heap_size := calc_new_heap_size size
      if new_heap_size < size then
        Except.error "heap size is too small; must be able to store first allocation"
      else
        match Stack.alloc (Stack.new new_heap_size) size alignment with
        | (some range_in_heap, allocator') =>
            Except.ok
              ({ arena_key :=
                   { size_class, index_in_pool := pool.length },
                 range_in_heap },
               pool ++ [({ size := new_heap_size }, allocator')])
        | (none, _) =>
            Except.error "called Option::unwrap on a None value"

/-- `HeapArena::alloc` for the `Stack` allocator: classifies the size,
selects `tiny_pool` for classes below 12 and
`self.size_pools[size_class - 12]` otherwise — the latter is a plain
vector index whose out-of-bounds case is a panic (error branch). -/
def HeapArena.alloc (arena : HeapArena) (size alignment : Nat) :
    Except String (Allocation × HeapArena) :=
  let size_class := classify_size size
  if size_class < 12 then
    match alloc_in_pool arena.tiny_pool size size_class alignment
        arena.calc_new_heap_size with
    | Except.ok (allocation, pool') =>
        Except.ok (allocation, { arena with tiny_pool := pool' })
    | Except.error e => Except.error e
  else
    let index := size_class - 12
    match arena.size_pools.get? index with
    | some pool =>
        match alloc_in_pool pool size size_class alignment
            arena.calc_new_heap_size with
        | Except.ok (allocation, pool') =>
            Except.ok (allocation,
              { arena with size_pools := arena.size_pools.set index pool' })
        | Except.error e => Except.error e
    | none =>
        Except.error "index out of bounds: the len is smaller than the index"

/-- `impl Index<ArenaKey> for HeapArena`: plain vector indexing, with
the out-of-bounds panic as the error branch. -/
def HeapArena.indexKey (arena : HeapArena) (key : ArenaKey) :
    Except String (Heap × Stack) :=
  if key.size_class < 12 then
    match arena.tiny_pool.get? key.index_in_pool with
    | some pair => Except.ok pair
    | none => Except.error "index out of bounds: the len is smaller than the index"
  else
    match arena.size_pools.get? (key.size_class - 12) with
    | some pool =>
        match pool.get? key.index_in_pool with
        | some pair => Except.ok pair
        | none => Except.error "index out of bounds: the len is smaller than the index"
    | none => Except.error "index out of bounds: the len is smaller than the index"

/-- The states a `Stack` allocator can reach from
`Stack::new(heap_size)` by any sequence of `alloc` calls and `dealloc`
calls whose argument is a range previously returned by this allocator.
The second component collects every range a successful `alloc` has
returned.  Failed calls leave the state unchanged and need no
constructor. -/
inductive Reachable (heap_size : Nat) : Stack → List Range → Prop where
  | init : Reachable heap_size (Stack.new heap_size) []
  | alloc (s : Stack) (rs : List Range) (size alignment : Nat)
      (r : Range) (s' : Stack) :
      Reachable heap_size s rs →
      Stack.alloc s size alignment = (some r, s') →
      Reachable heap_size s' (r :: rs)
  | dealloc (s : Stack) (rs : List Range) (r : Range) (s' : Stack) :
      Reachable heap_size s rs →
      r ∈ rs →
      Stack.dealloc s r = (Except.ok (), s') →
      Reachable heap_size s' rs

/-- A concrete arena exercising the pool search: the tiny pool holds
two heaps of size 16; the older one (insertion position 0) is
exhausted (`pointer = 0`), the newer one (insertion position 1) is
fresh (`pointer = 16`). -/
def twoHeapArena : HeapArena where
  tiny_pool := [({ size := 16 }, { pointer := 0 }), ({ size := 16 }, { pointer := 16 })]
  size_pools := []
  calc_new_heap_size := fun s => s

/-- `twoHeapArena` after a request of 8 bytes is served by the newer
heap: that heap's allocator pointer has moved from 16 to 8. -/
def twoHeapArenaAfter : HeapArena where
  tiny_pool := [({ size := 16 }, { pointer := 0 }), ({ size := 16 }, { pointer := 8 })]
  size_pools := []
  calc_new_heap_size := fun s => s

/-- A freshly constructed arena (`HeapArena::new`): both pool fields
empty, with the sizing policy of the spec's scenario section. -/
def freshArena : HeapArena where
  tiny_pool := []
  size_pools := []
  calc_new_heap_size := fun s => max (2 * s) 4096

/-! ## Helper lemmas -/

/-- For an alignment `2^k` the 64-bit mask is `2^64 - 2^k`. -/
theorem create_alignment_bitmask_pow (k : Nat) (hk : k ≤ 64) :
    create_alignment_bitmask (2 ^ k) = 2 ^ 64 - 2 ^ k := by
  have h1 : (1 : Nat) ≤ 2 ^ k := Nat.one_le_two_pow
  have h2 : 2 ^ k ≤ 2 ^ 64 := Nat.pow_le_pow_right (by omega) hk
  unfold create_alignment_bitmask
  omega

/-- Masking with `2^64 - 2^k` clears the low `k` bits: on values below
`2^64` it rounds down to a multiple of `2^k`. -/
theorem land_mask_eq (x k : Nat) (hx : x < 2 ^ 64) (hk : k ≤ 64) :
    x &&& (2 ^ 64 - 2 ^ k) = x / 2 ^ k * 2 ^ k := by
  have hmask : 2 ^ 64 - 2 ^ k = (2 ^ (64 - k) - 1) <<< k := by
    rw [Nat.shiftLeft_eq, Nat.sub_mul, one_mul, ← Nat.pow_add]
    rw [Nat.sub_add_cancel hk]
  have hdiv : x / 2 ^ k * 2 ^ k = (x >>> k) <<< k := by
    rw [Nat.shiftRight_eq_div_pow, Nat.shiftLeft_eq]
  rw [hmask, hdiv]
  apply Nat.eq_of_testBit_eq
  intro i
  rw [Nat.testBit_and, Nat.testBit_shiftLeft, Nat.testBit_shiftLeft,
    Nat.testBit_shiftRight]
  by_cases hik : k ≤ i
  · by_cases hi64 : i < 64
    · have : i - k < 64 - k := by omega
      have hadd : k + (i - k) = i := by omega
      simp [hik, Nat.testBit_two_pow_sub_one, this, hadd, ge_iff_le]
    · have hxbit : x.testBit i = false :=
        Nat.testBit_lt_two_pow (lt_of_lt_of_le hx (Nat.pow_le_pow_right (by omega) (by omega)))
      have : ¬(i - k < 64 - k) := by omega
      have hadd : k + (i - k) = i := by omega
      simp [hik, Nat.testBit_two_pow_sub_one, this, hadd, hxbit, ge_iff_le]
  · simp [hik, ge_iff_le]

theorem land_mask_le (x m : Nat) : x &&& m ≤ x :=
  Nat.and_le_left

/-- Characterisation: given enough fuel, `bitLen fuel n` is the unique
`b` with `2^(b-1) ≤ n < 2^b` for positive `n`. -/
theorem bitLen_bounds (fuel : Nat) : ∀ n, 0 < n → n < 2 ^ fuel →
    2 ^ (bitLen fuel n - 1) ≤ n ∧ n < 2 ^ bitLen fuel n := by
  induction fuel with
  | zero =>
    intro n hpos hlt
    simp at hlt
    omega
  | succ fuel ih =>
    intro n hpos hlt
    have hne : n ≠ 0 := by omega
    show 2 ^ ((if n = 0 then 0 else bitLen fuel (n / 2) + 1) - 1) ≤ n ∧
      n < 2 ^ (if n = 0 then 0 else bitLen fuel (n / 2) + 1)
    rw [if_neg hne]
    rcases Nat.lt_or_ge n 2 with h2 | h2
    · interval_cases n
      simp [bitLen]
      cases fuel <;> simp [bitLen]
    · have hdivpos : 0 < n / 2 := Nat.div_pos h2 (by omega)
      have hdivlt : n / 2 < 2 ^ fuel := by
        have : n < 2 ^ fuel * 2 := by
          rw [Nat.pow_succ] at hlt
          exact hlt
        omega
      obtain ⟨ihlo, ihhi⟩ := ih (n / 2) hdivpos hdivlt
      have hble : 1 ≤ bitLen fuel (n / 2) := by
        by_contra hb
        have hb0 : bitLen fuel (n / 2) = 0 := by omega
        rw [hb0] at ihhi
        omega
      constructor
      · have key : 2 ^ bitLen fuel (n / 2) ≤ n := by
          calc 2 ^ bitLen fuel (n / 2)
              = 2 ^ (bitLen fuel (n / 2) - 1) * 2 := by
                rw [← Nat.pow_succ]
                congr 1
                omega
            _ ≤ n / 2 * 2 := Nat.mul_le_mul_right 2 ihlo
            _ ≤ n := by omega
        simpa using key
      · calc n < (n / 2 + 1) * 2 := by omega
          _ ≤ 2 ^ bitLen fuel (n / 2) * 2 := Nat.mul_le_mul_right 2 ihhi
          _ = 2 ^ (bitLen fuel (n / 2) + 1) := by rw [Nat.pow_succ]

theorem bitLen_pos (n : Nat) (h : 0 < n) : 0 < bitLen 64 n := by
  show 0 < if n = 0 then 0 else bitLen 63 (n / 2) + 1
  rw [if_neg (by omega)]
  omega

/-- For a positive `u64` value, the bit-length fits in the 64-bit
word. -/
theorem bitLen_le_64 (n : Nat) (h : 0 < n) (h64 : n < 2 ^ 64) :
    bitLen 64 n ≤ 64 := by
  by_contra hgt
  obtain ⟨hlo, _⟩ := bitLen_bounds 64 n h h64
  have : 2 ^ 64 ≤ 2 ^ (bitLen 64 n - 1) :=
    Nat.pow_le_pow_right (by omega) (by omega)
  omega

/-- On positive `u64` values `classify_size` is the bit-length minus
one. -/
theorem classify_size_eq_bitLen_sub_one (n : Nat) (h : 0 < n)
    (h64 : n < 2 ^ 64) : classify_size n = bitLen 64 n - 1 := by
  have h1 := bitLen_pos n h
  have h2 := bitLen_le_64 n h h64
  simp only [classify_size]
  omega

/-- `classify_size` computes `floor(log2 size)` on positive `u64`
values. -/
theorem classify_size_eq_log2 (n : Nat) (h : 0 < n) (h64 : n < 2 ^ 64) :
    classify_size n = Nat.log2 n := by
  rw [classify_size_eq_bitLen_sub_one n h h64]
  obtain ⟨hlo, hhi⟩ := bitLen_bounds 64 n h h64
  have hpos := bitLen_pos n h
  have hne : n ≠ 0 := by omega
  have hle : bitLen 64 n - 1 ≤ Nat.log2 n := (Nat.le_log2 hne).mpr hlo
  have hlt : Nat.log2 n < bitLen 64 n := (Nat.log2_lt hne).mpr hhi
  omega

/-! ## Claim theorems: the `Stack` allocator -/

/-- Claim C3, counterexample to the range `[aligned, p)`: at pointer
10, a request of 3 bytes at alignment 4 aligns the candidate 7 down to
4 and returns the range `[4, 7)` — not `[4, 10)` as the claim's
`[aligned, previous_pointer)` would demand. -/
theorem stack_alloc_range_end_cex :
    (Stack.alloc { pointer := 10 } 3 4).1 = some { start := 4, stop := 7 } ∧
    ({ start := 4, stop := 7 } : Range) ≠ { start := 4, stop := 10 } :=
  ⟨rfl, by decide⟩

/-- Claim C3 (amended): `Stack::alloc` fails exactly when
`pointer − size` underflows (then the state is unchanged); on success
it returns the byte range `[aligned, aligned + size)` with
`aligned = (pointer − size) & !(alignment − 1)` and commits the
pointer to `aligned`. -/
theorem stack_alloc_spec (s : Stack) (size alignment : Nat) :
    ((Stack.alloc s size alignment).1 = none ↔ s.pointer < size) ∧
    ((Stack.alloc s size alignment).1 = none →
      (Stack.alloc s size alignment).2 = s) ∧
    (size ≤ s.pointer →
      Stack.alloc s size alignment =
        (some { start := (s.pointer - size) &&& create_alignment_bitmask alignment,
                stop := ((s.pointer - size) &&& create_alignment_bitmask alignment) + size },
         { pointer := (s.pointer - size) &&& create_alignment_bitmask alignment })) := by
  refine ⟨⟨?_, ?_⟩, ?_, ?_⟩
  · intro hnone
    by_contra hge
    simp [Stack.alloc, Nat.le_of_not_lt hge] at hnone
  · intro hlt
    simp [Stack.alloc, Nat.not_le.mpr hlt]
  · intro hnone
    by_cases h : size ≤ s.pointer
    · simp [Stack.alloc, h] at hnone
    · simp [Stack.alloc, h]
  · intro h
    simp [Stack.alloc, h]

/-- Witness for `stack_alloc_spec` at pointer 10, size 3,
alignment 4. -/
theorem stack_alloc_spec_witness :
    Stack.alloc { pointer := 10 } 3 4 =
      (some { start := (10 - 3) &&& create_alignment_bitmask 4,
              stop := ((10 - 3) &&& create_alignment_bitmask 4) + 3 },
       { pointer := (10 - 3) &&& create_alignment_bitmask 4 }) :=
  (stack_alloc_spec { pointer := 10 } 3 4).2.2 (by decide)

/-- Claim C4, counterexample to the round-trip: at pointer 10, an
8-byte-aligned... at alignment 4 the 3-byte allocation returns
`[4, 7)`; the immediate dealloc succeeds but leaves the pointer at 7,
not at the original 10. -/
theorem stack_roundtrip_cex :
    Stack.alloc { pointer := 10 } 3 4 =
      (some { start := 4, stop := 7 }, { pointer := 4 }) ∧
    Stack.dealloc { pointer := 4 } { start := 4, stop := 7 } =
      (Except.ok (), { pointer := 7 }) ∧
    (7 : Nat) ≠ 10 :=
  ⟨rfl, rfl, by decide⟩

/-- Claim C4 (amended): deallocating immediately after a successful
allocation always succeeds, and the pointer afterwards equals the
returned range's end `aligned + size`, which is at most the
pre-allocation pointer; it equals the pre-allocation pointer exactly
in the case that `pointer − size` was already a multiple of the
alignment. -/
theorem stack_dealloc_after_alloc (s : Stack) (size k : Nat)
    (h64 : s.pointer < 2 ^ 64) (hk : k ≤ 64) (r : Range) (s1 : Stack)
    (halloc : Stack.alloc s size (2 ^ k) = (some r, s1)) :
    Stack.dealloc s1 r = (Except.ok (), { pointer := r.stop }) ∧
    r.stop ≤ s.pointer ∧
    (r.stop = s.pointer ↔ 2 ^ k ∣ s.pointer - size) := by
  unfold Stack.alloc at halloc
  by_cases h : size ≤ s.pointer
  · rw [if_pos h] at halloc
    injection halloc with h1 h2
    injection h1 with h1
    subst h1
    subst h2
    have hle := land_mask_le (s.pointer - size) (create_alignment_bitmask (2 ^ k))
    refine ⟨?_, ?_, ?_⟩
    · simp [Stack.dealloc]
    · show ((s.pointer - size) &&& create_alignment_bitmask (2 ^ k)) + size ≤ s.pointer
      omega
    · show ((s.pointer - size) &&& create_alignment_bitmask (2 ^ k)) + size = s.pointer ↔
        2 ^ k ∣ s.pointer - size
      rw [create_alignment_bitmask_pow k hk,
        land_mask_eq (s.pointer - size) k (by omega) hk]
      constructor
      · intro heq
        have hfix : (s.pointer - size) / 2 ^ k * 2 ^ k = s.pointer - size := by
          omega
        rw [← hfix]
        exact Dvd.intro_left _ rfl
      · intro hdvd
        rw [Nat.div_mul_cancel hdvd]
        omega
  · rw [if_neg h] at halloc
    simp at halloc

/-- Witness for `stack_dealloc_after_alloc` at pointer 10, size 3,
alignment `2^2`. -/
theorem stack_dealloc_after_alloc_witness :
    Stack.dealloc { pointer := 4 } { start := 4, stop := 7 } =
      (Except.ok (), { pointer := ({ start := 4, stop := 7 } : Range).stop }) ∧
    ({ start := 4, stop := 7 } : Range).stop ≤ 10 ∧
    (({ start := 4, stop := 7 } : Range).stop = 10 ↔ 2 ^ 2 ∣ 10 - 3) :=
  stack_dealloc_after_alloc { pointer := 10 } 3 2 (by decide) (by decide)
    { start := 4, stop := 7 } { pointer := 4 } (by decide)

/-- Claim C5: `Stack::dealloc` succeeds if and only if the range
starts at the current pointer, in which case the pointer becomes the
range's end; any other range yields `Err(())` with the state
unchanged. -/
theorem stack_dealloc_spec (s : Stack) (range : Range) :
    (range.start = s.pointer →
      Stack.dealloc s range = (Except.ok (), { pointer := range.stop })) ∧
    (range.start ≠ s.pointer →
      Stack.dealloc s range = (Except.error (), s)) := by
  constructor
  · intro h
    simp [Stack.dealloc, h]
  · intro h
    simp [Stack.dealloc, h]

/-- Witness for `stack_dealloc_spec` at pointer 4 and range
`[4, 10)`. -/
theorem stack_dealloc_spec_witness :
    Stack.dealloc { pointer := 4 } { start := 4, stop := 10 } =
      (Except.ok (), { pointer := 10 }) :=
  (stack_dealloc_spec { pointer := 4 } { start := 4, stop := 10 }).1 rfl

/-- Claim C8: with a power-of-two alignment, a successful `Stack`
allocation's start is a multiple of the alignment and the range is at
least `size` bytes long. -/
theorem stack_alloc_alignment (s : Stack) (size k : Nat)
    (h64 : s.pointer < 2 ^ 64) (hk : k ≤ 64) (r : Range) (s1 : Stack)
    (halloc : Stack.alloc s size (2 ^ k) = (some r, s1)) :
    2 ^ k ∣ r.start ∧ size ≤ r.stop - r.start := by
  unfold Stack.alloc at halloc
  by_cases h : size ≤ s.pointer
  · rw [if_pos h] at halloc
    injection halloc with h1 h2
    injection h1 with h1
    subst h1
    constructor
    · show 2 ^ k ∣ (s.pointer - size) &&& create_alignment_bitmask (2 ^ k)
      rw [create_alignment_bitmask_pow k hk,
        land_mask_eq (s.pointer - size) k (by omega) hk]
      exact Dvd.intro_left _ rfl
    · show size ≤
        ((s.pointer - size) &&& create_alignment_bitmask (2 ^ k)) + size -
          ((s.pointer - size) &&& create_alignment_bitmask (2 ^ k))
      omega
  · rw [if_neg h] at halloc
    simp at halloc

/-- Witness for `stack_alloc_alignment` at pointer 10, size 3,
alignment `2^2`. -/
theorem stack_alloc_alignment_witness :
    2 ^ 2 ∣ ({ start := 4, stop := 7 } : Range).start ∧
    3 ≤ ({ start := 4, stop := 7 } : Range).stop -
      ({ start := 4, stop := 7 } : Range).start :=
  stack_alloc_alignment { pointer := 10 } 3 2 (by decide) (by decide)
    { start := 4, stop := 7 } { pointer := 4 } (by decide)

/-- Claim C10: from `Stack::new(heap_size)`, any sequence of `alloc`
calls and `dealloc` calls on previously returned ranges keeps the
pointer within `[0, heap_size]`, and every range ever returned ends at
or below `heap_size` (its start, a `Nat`, is trivially at least 0). -/
theorem stack_reachable_invariant (heap_size : Nat) (s : Stack)
    (rs : List Range) (h : Reachable heap_size s rs) :
    s.pointer ≤ heap_size ∧ ∀ r ∈ rs, r.stop ≤ heap_size := by
  induction h with
  | init => exact ⟨Nat.le_refl _, by simp⟩
  | alloc s rs size alignment r s' hreach halloc ih =>
    obtain ⟨ihp, ihr⟩ := ih
    unfold Stack.alloc at halloc
    by_cases hle : size ≤ s.pointer
    · rw [if_pos hle] at halloc
      injection halloc with h1 h2
      injection h1 with h1
      subst h1
      subst h2
      have hmask := land_mask_le (s.pointer - size) (create_alignment_bitmask alignment)
      constructor
      · show ((s.pointer - size) &&& create_alignment_bitmask alignment) ≤ heap_size
        omega
      · intro r' hr'
        rcases List.mem_cons.mp hr' with hfst | hmem
        · subst hfst
          show ((s.pointer - size) &&& create_alignment_bitmask alignment) + size ≤ heap_size
          omega
        · exact ihr r' hmem
    · rw [if_neg hle] at halloc
      simp at halloc
  | dealloc s rs r s' hreach hmem hdealloc ih =>
    obtain ⟨ihp, ihr⟩ := ih
    unfold Stack.dealloc at hdealloc
    by_cases hst : r.start = s.pointer
    · rw [if_pos hst] at hdealloc
      injection hdealloc with h1 h2
      subst h2
      exact ⟨ihr r hmem, ihr⟩
    · rw [if_neg hst] at hdealloc
      simp at hdealloc

/-- Witness for `stack_reachable_invariant`: the state after one
4-byte allocation at alignment 4 from a 100-byte heap. -/
theorem stack_reachable_invariant_witness :
    ({ pointer := 96 } : Stack).pointer ≤ 100 ∧
    ∀ r ∈ [({ start := 96, stop := 100 } : Range)], r.stop ≤ 100 :=
  stack_reachable_invariant 100 { pointer := 96 } [{ start := 96, stop := 100 }]
    (Reachable.alloc _ _ 4 4 _ _ Reachable.init (by decide))

/-! ## Claim theorems: size classification and flushing -/

/-- Claim C7: on positive `u64` sizes, `classify_size` is
`floor(log2 size)` (the index of the highest set bit); it is
monotonically non-decreasing; and `classify_size (2^n) = n` for every
exponent representable in a `u64`. -/
theorem classify_size_correct (n : Nat) (hpos : 0 < n) (h64 : n < 2 ^ 64) :
    classify_size n = Nat.log2 n ∧
    (∀ m, 0 < m → m ≤ n → classify_size m ≤ classify_size n) ∧
    (∀ k, k ≤ 63 → classify_size (2 ^ k) = k) := by
  refine ⟨classify_size_eq_log2 n hpos h64, ?_, ?_⟩
  · intro m hm hmn
    have hm64 : m < 2 ^ 64 := lt_of_le_of_lt hmn h64
    rw [classify_size_eq_log2 m hm hm64, classify_size_eq_log2 n hpos h64]
    have h2 : 2 ^ Nat.log2 m ≤ n :=
      le_trans (Nat.log2_self_le (by omega)) hmn
    exact (Nat.le_log2 (by omega)).mpr h2
  · intro k hk
    have hplt : (2 : Nat) ^ k < 2 ^ 64 :=
      Nat.pow_lt_pow_right (by omega) (by omega)
    rw [classify_size_eq_log2 (2 ^ k) (Nat.pow_pos (by omega)) hplt,
      Nat.log2_two_pow]

/-- Witness for `classify_size_correct` at `n = 4096`. -/
theorem classify_size_correct_witness :
    classify_size 4096 = Nat.log2 4096 ∧
    (∀ m, 0 < m → m ≤ 4096 → classify_size m ≤ classify_size 4096) ∧
    (∀ k, k ≤ 63 → classify_size (2 ^ k) = k) :=
  classify_size_correct 4096 (by decide) (by decide)

/-- Claim C9: `Heap::flush_range` on a backwards range (`end < start`)
fails with the backwards-range error and enqueues nothing; on a valid
range it enqueues exactly one staging-to-gpu copy of `end − start`
bytes at offset `start` in both buffers. -/
theorem heap_flush_range_spec (encoder : List CopyCmd) (range : Range) :
    (range.stop < range.start →
      Heap.flush_range encoder range =
        Except.error "range is backwards; end should not be less than start") ∧
    (range.start ≤ range.stop →
      Heap.flush_range encoder range =
        Except.ok (encoder ++
          [{ src_offset := range.start, dst_offset := range.start,
             copy_size := range.stop - range.start }])) := by
  constructor
  · intro h
    simp [Heap.flush_range, get_range_size, Nat.not_le.mpr h]
  · intro h
    simp [Heap.flush_range, get_range_size, h]

/-- Witness for `heap_flush_range_spec` at the spec's scenario input
`range = {start: 10, end: 4}`. -/
theorem heap_flush_range_spec_witness :
    Heap.flush_range [] { start := 10, stop := 4 } =
      Except.error "range is backwards; end should not be less than start" :=
  (heap_flush_range_spec [] { start := 10, stop := 4 }).1 (by decide)

/-! ## Claim theorems: the heap arena -/

/-- If every allocator in a list rejects the request, the
`rev().enumerate()` search finds nothing. -/
theorem searchRev_eq_none (size alignment : Nat) (l : List (Heap × Stack))
    (h : ∀ p ∈ l, (Stack.alloc p.2 size alignment).1 = none) :
    searchRev size alignment l = none := by
  induction l with
  | nil => rfl
  | cons hd tl ih =>
    obtain ⟨heap, allocator⟩ := hd
    have hhd := h (heap, allocator) (List.mem_cons_self _ _)
    have htl : ∀ p ∈ tl, (Stack.alloc p.2 size alignment).1 = none :=
      fun p hp => h p (List.mem_cons_of_mem _ hp)
    simp only [searchRev]
    cases halloc : Stack.alloc allocator size alignment with
    | mk fst snd =>
      cases fst with
      | some r =>
        rw [halloc] at hhd
        simp at hhd
      | none =>
        rw [ih htl]

/-- Claim C6: when no existing heap in the pool can satisfy the
request, a policy result smaller than the request panics, and
otherwise exactly one `(Heap, Allocator)` pair of the policy's size is
appended and the retried allocation into it succeeds. -/
theorem arena_pool_growth_spec (pool : SizePool)
    (size size_class alignment : Nat) (policy : Nat → Nat)
    (hall : ∀ p ∈ pool, (Stack.alloc p.2 size alignment).1 = none) :
    (policy size < size →
      alloc_in_pool pool size size_class alignment policy =
        Except.error "heap size is too small; must be able to store first allocation") ∧
    (size ≤ policy size →
      alloc_in_pool pool size size_class alignment policy =
        Except.ok
          ({ arena_key := { size_class := size_class, index_in_pool := pool.length },
             range_in_heap :=
               { start := (policy size - size) &&& create_alignment_bitmask alignment,
                 stop := ((policy size - size) &&& create_alignment_bitmask alignment) + size } },
           pool ++ [({ size := policy size },
             { pointer := (policy size - size) &&& create_alignment_bitmask alignment })])) := by
  have hsearch : searchRev size alignment pool.reverse = none :=
    searchRev_eq_none size alignment pool.reverse
      (fun p hp => hall p (List.mem_reverse.mp hp))
  constructor
  · intro hlt
    simp only [alloc_in_pool, hsearch]
    rw [if_pos hlt]
  · intro hge
    have halloc : Stack.alloc (Stack.new (policy size)) size alignment =
        (some { start := (policy size - size) &&& create_alignment_bitmask alignment,
                stop := ((policy size - size) &&& create_alignment_bitmask alignment) + size },
         { pointer := (policy size - size) &&& create_alignment_bitmask alignment }) := by
      unfold Stack.alloc Stack.new
      rw [if_pos hge]
    simp only [alloc_in_pool, hsearch, halloc]
    rw [if_neg (by omega)]

/-- Witness for `arena_pool_growth_spec`: an empty pool, a 100-byte
request at alignment 16, and the doubling policy; the new 200-byte
heap serves `[96, 196)`. -/
theorem arena_pool_growth_spec_witness :
    alloc_in_pool [] 100 12 16 (fun s => 2 * s) =
      Except.ok
        ({ arena_key := { size_class := 12, index_in_pool := 0 },
           range_in_heap := { start := 96, stop := 196 } },
         [({ size := 200 }, { pointer := 96 })]) :=
  (arena_pool_growth_spec [] 100 12 16 (fun s => 2 * s) (by simp)).2 (by decide)

/-- Claim C1, evaluation at the failing input: in `twoHeapArena` the
newer heap (insertion position 1) satisfies an 8-byte request, yet the
returned key carries `index_in_pool = 0` — the index produced by
`.rev().enumerate()` counts from the end of the pool.  Indexing the
arena with that key returns the exhausted older pair
`(Heap 16, pointer 0)`, not the pair that satisfied the request, which
now sits at position 1 with pointer 8. -/
theorem arena_alloc_reverse_index_bug :
    HeapArena.alloc twoHeapArena 8 1 =
      Except.ok
        ({ arena_key := { size_class := 3, index_in_pool := 0 },
           range_in_heap := { start := 8, stop := 16 } },
         twoHeapArenaAfter) ∧
    twoHeapArenaAfter.tiny_pool.get? 1 =
      some ({ size := 16 }, { pointer := 8 }) ∧
    twoHeapArenaAfter.indexKey { size_class := 3, index_in_pool := 0 } =
      Except.ok ({ size := 16 }, { pointer := 0 }) ∧
    (({ size := 16 }, ({ pointer := 0 } : Stack)) : Heap × Stack) ≠
      ({ size := 16 }, { pointer := 8 }) :=
  ⟨rfl, rfl, rfl, by decide⟩

/-- Claim C2, evaluation at the failing input: 4096 bytes classify
into class 12, and on a freshly constructed arena (whose `size_pools`
vector is empty and is never grown by any code path)
`HeapArena::alloc` hits the vector index out of bounds instead of
extending the vector. -/
theorem arena_alloc_large_class_oob :
    classify_size 4096 = 12 ∧
    freshArena.size_pools = [] ∧
    HeapArena.alloc freshArena 4096 1 =
      Except.error "index out of bounds: the len is smaller than the index" :=
  ⟨rfl, rfl, rfl⟩

end WgpuAllocators
